import Mathlib

/-!
A shallow embedding of the extended-attribute property store
(`txdav/base/propertystore/xattr.py`) of the calendarserver repository.

Python 2 byte strings are modelled as lists of bytes (`Fin 256`).  The
platform is fixed to `linux2`, so the dead-property attribute-name lead
string is `"user."` and `_ERRNO_NO_ATTR` is `ENODATA = 61`.
-/

set_option autoImplicit false

abbrev Byte := Fin 256

abbrev ByteStr := List Byte

/-- Convert a Lean string literal (assumed ASCII) to a byte string. -/
def bs (s : String) : ByteStr :=
  s.toList.map (fun c => (⟨c.toNat % 256, Nat.mod_lt _ (by decide)⟩ : Byte))

/-- The byte `'%'`. -/
def pctB : Byte := ⟨37, by decide⟩

/-- The byte `'{'`. -/
def lbB : Byte := ⟨123, by decide⟩

/-- The byte `'}'`. -/
def rbB : Byte := ⟨125, by decide⟩

/--
Characters left unescaped by `urllib.quote(s, safe="{}:")` in Python 2:
the `always_safe` set (letters, digits, `_`, `.`, `-`) plus `{`, `}`, `:`.
-/
def isSafeByte (b : Byte) : Bool :=
  (65 ≤ b.val && b.val ≤ 90) || (97 ≤ b.val && b.val ≤ 122) ||
  (48 ≤ b.val && b.val ≤ 57) || b.val == 95 || b.val == 46 || b.val == 45 ||
  b.val == 123 || b.val == 125 || b.val == 58

/-- Uppercase hex digit of a nibble, as in Python's `"%%%02X"` formatting. -/
def hexDigitB (n : Nat) : Byte :=
  ⟨(if n % 16 < 10 then 48 + n % 16 else 55 + n % 16) % 256, Nat.mod_lt _ (by decide)⟩

/-- Recognize a hex digit byte (`0-9`, `A-F`, `a-f`). -/
def isHexDigit (b : Byte) : Bool :=
  (48 ≤ b.val && b.val ≤ 57) || (65 ≤ b.val && b.val ≤ 70) || (97 ≤ b.val && b.val ≤ 102)

/-- Numeric value of a hex digit byte. -/
def hexVal (b : Byte) : Nat :=
  if 48 ≤ b.val ∧ b.val ≤ 57 then b.val - 48
  else if 65 ≤ b.val ∧ b.val ≤ 70 then b.val - 55
  else if 97 ≤ b.val ∧ b.val ≤ 102 then b.val - 87
  else 0

/-- The byte denoted by two hex digits. -/
def hexByte (h1 h2 : Byte) : Byte :=
  ⟨(hexVal h1 * 16 + hexVal h2) % 256, Nat.mod_lt _ (by decide)⟩

/-- One character of `urllib.quote`: safe characters pass through, others
become a `%XX` escape. -/
def quoteChar (b : Byte) : ByteStr :=
  if isSafeByte b then [b]
  else [pctB, hexDigitB (b.val / 16), hexDigitB (b.val % 16)]

/-- `urllib.quote(s, safe="{}:")`. -/
def pyQuote (s : ByteStr) : ByteStr := s.flatMap quoteChar

/--
`urllib.unquote`: a `%` followed by two hex digits decodes to a byte,
any other `%` is literal.  (Python's `int(x, 16)` also tolerates signs and
whitespace inside the two-character escape; inputs produced by `pyQuote`
never contain those, and no claim depends on them.)
-/
def pyUnquote : ByteStr → ByteStr
  | c :: h1 :: h2 :: rest =>
    if c = pctB ∧ isHexDigit h1 = true ∧ isHexDigit h2 = true then
      hexByte h1 h2 :: pyUnquote rest
    else
      c :: pyUnquote (h1 :: h2 :: rest)
  | c :: rest => c :: pyUnquote rest
  | [] => []

/-! ## Data model -/

/-- A qualified property name (the `PropertyName` of the store's base
module): an XML namespace and a local name.  The namespace field is called
`ns` because `namespace` is a Lean keyword. -/
structure PropertyName where
  ns : ByteStr
  name : ByteStr
deriving DecidableEq

/-- An effective key: `(PropertyName, uid)` as built by the store. -/
abbrev EffKey := PropertyName × Option ByteStr

/-- A stored document value, identified with its root element / canonical
XML text.  The store treats it as opaque. -/
abbrev Value := String

/--
An abstraction of the byte blobs held in extended attributes.  The three
external codecs (`zlib`, `WebDAVDocument.fromString`, `cPickle.loads`) are
modelled by tagged constructors: `zlibData b` is the zlib compression of
the bytes `b`, `docText v` is canonical document text with root element
`v`, `pickleData v` is a pickled document with root element `v`, and
`junk` is bytes accepted by none of the three. -/
inductive Blob where
  | zlibData (b : Blob)
  | docText (v : Value)
  | pickleData (v : Value)
  | junk
deriving DecidableEq

/-- `zlib.decompress`: succeeds exactly on zlib-compressed data. -/
def decompress : Blob → Option Blob
  | .zlibData b => some b
  | _ => none

/-- `WebDAVDocument.fromString`: succeeds exactly on document text. -/
def docFromString : Blob → Option Value
  | .docText v => some v
  | _ => none

/-- `cPickle.loads`: succeeds exactly on pickled data. -/
def loadsPickle : Blob → Option Value
  | .pickleData v => some v
  | _ => none

/-- Platform is fixed to `linux2`: attribute names start with `"user."`. -/
def deadPropertyXattrPre : ByteStr := bs "user."

/-- `errno.ENODATA`, the `_ERRNO_NO_ATTR` of the module on linux2. -/
def errnoNoAttr : Nat := 61

/-- `errno.ENOENT`. -/
def errnoENOENT : Nat := 2

/-- Association-list lookup (first binding wins), modelling `dict.get`. -/
def lookupA {α β : Type} [DecidableEq α] : List (α × β) → α → Option β
  | [], _ => none
  | (k, v) :: t, a => if k = a then some v else lookupA t a

/-- Association-list update, modelling `d[k] = v`. -/
def assocSet {α β : Type} [DecidableEq α] : List (α × β) → α → β → List (α × β)
  | [], k, v => [(k, v)]
  | (a, b) :: t, k, v => if a = k then (k, v) :: t else (a, b) :: assocSet t k v

/-- Association-list removal, modelling `del d[k]`. -/
def assocErase {α β : Type} [DecidableEq α] (l : List (α × β)) (k : α) : List (α × β) :=
  l.filter (fun p => decide (p.1 ≠ k))

/-- Set-removal on a list modelling a Python `set.remove`. -/
def setRemove {α : Type} [DecidableEq α] (l : List α) (x : α) : List α :=
  l.filter (fun y => decide (y ≠ x))

/-- Set-insertion on a list modelling a Python `set.add`. -/
def setAdd {α : Type} [DecidableEq α] (l : List α) (x : α) : List α :=
  if x ∈ l then l else x :: l

/-- The `_namespaceCompress` table of `PropertyStore`. -/
def namespaceCompress : List (ByteStr × ByteStr) := [
  (bs "urn:ietf:params:xml:ns:caldav", bs "CALDAV:"),
  (bs "urn:ietf:params:xml:ns:carddav", bs "CARDDAV:"),
  (bs "http://calendarserver.org/ns/", bs "CS:"),
  (bs "http://cal.me.com/_namespace/", bs "ME:"),
  (bs "http://twistedmatrix.com/xml_namespace/dav/", bs "TD:"),
  (bs "http://twistedmatrix.com/xml_namespace/dav/private/", bs "TDP:")]

/-- The `_namespaceExpand` table: the compression table with the pairs
swapped, exactly as the source builds it. -/
def namespaceExpand : List (ByteStr × ByteStr) :=
  namespaceCompress.map (fun p => (p.2, p.1))

/-- Errors surfaced by store operations.  `KeyError` is shown as
`notFound` (the abstract base class, not under `src/`, surfaces it as the
protocol-level not-found condition), `ValueError` from key decoding as
`valueError`, Python `AssertionError` as `assertionErr`, and an uncaught
`IOError` with its errno as `ioErr`. -/
inductive Err where
  | notFound
  | storeError
  | valueError
  | invalidKey
  | assertionErr
  | ioErr (errno : Nat)
deriving DecidableEq

deriving instance DecidableEq for Except

/-! ## Key codec -/

/-- `PropertyStore._encodeKey`. -/
def encodeKey (ek : EffKey) (compressNamespace : Bool := true) : ByteStr :=
  let nsPart :=
    if compressNamespace then (lookupA namespaceCompress ek.1.ns).getD ek.1.ns
    else ek.1.ns
  let result := pyQuote (lbB :: nsPart ++ rbB :: ek.1.name)
  let result :=
    match ek.2 with
    | some u => if u ≠ [] then u ++ result else result
    | none => result
  deadPropertyXattrPre ++ result

/-- Python's `str.find`: index of the first occurrence, if any. -/
def findOpt (c : Byte) : ByteStr → Option Nat
  | [] => none
  | x :: t => if x = c then some 0 else (findOpt c t).map (· + 1)

/-- `PropertyStore._decodeKey`.  Note the source strips
`len(deadPropertyXattrPrefix)` characters without checking that they
actually form that lead string. -/
def decodeKey (name : ByteStr) : Except Err EffKey :=
  let n := pyUnquote (name.drop deadPropertyXattrPre.length)
  match findOpt lbB n, findOpt rbB n with
  | some i1, some i2 =>
    if ¬ n.length > i2 then .error .valueError
    else
      let uid : Option ByteStr := if i1 = 0 then none else some (n.take i1)
      let rawNs := (n.drop (i1 + 1)).take (i2 - (i1 + 1))
      let propnamespace := (lookupA namespaceExpand rawNs).getD rawNs
      let propname := n.drop (i2 + 1)
      .ok (⟨propnamespace, propname⟩, uid)
  | _, _ => .error .valueError

/-! ## Filesystem model -/

/--
The per-resource extended-attribute table with its containing file.  The
`xattr` library raises `IOError` for I/O failures; the three fault maps
inject an `IOError` with the given errno into the get / set / delete
primitives for the given attribute name, letting unexpected I/O failures
(permissions, device errors) be modelled alongside the normal paths. -/
structure FS where
  pathExists : Bool
  attrs : List (ByteStr × Blob)
  readFault : ByteStr → Option Nat
  writeFault : ByteStr → Option Nat
  delFault : ByteStr → Option Nat

/-- How an attribute deletion fails: a Python `KeyError`, or an `IOError`
with an errno. -/
inductive DelErr where
  | keyMissing
  | ioErrno (e : Nat)
deriving DecidableEq

/-- `self.attrs[k]`: errors are `IOError` errnos (`ENOENT` when the file
is gone, `ENODATA` when the attribute is absent). -/
def xattrGet (fs : FS) (k : ByteStr) : Except Nat Blob :=
  match fs.readFault k with
  | some e => .error e
  | none =>
    if fs.pathExists then
      match lookupA fs.attrs k with
      | some b => .ok b
      | none => .error errnoNoAttr
    else .error errnoENOENT

/-- `self.attrs[k] = b`. -/
def xattrSet (fs : FS) (k : ByteStr) (b : Blob) : Except Nat FS :=
  match fs.writeFault k with
  | some e => .error e
  | none =>
    if fs.pathExists then .ok { fs with attrs := assocSet fs.attrs k b }
    else .error errnoENOENT

/-- `del self.attrs[k]`. -/
def xattrDel (fs : FS) (k : ByteStr) : Except DelErr FS :=
  match fs.delFault k with
  | some e => .error (.ioErrno e)
  | none =>
    if fs.pathExists then
      match lookupA fs.attrs k with
      | some _ => .ok { fs with attrs := assocErase fs.attrs k }
      | none => .error .keyMissing
    else .error (.ioErrno errnoENOENT)

/-- `k in self.attrs`. -/
def xattrContains (fs : FS) (k : ByteStr) : Except Nat Bool :=
  if fs.pathExists then .ok (lookupA fs.attrs k).isSome else .error errnoENOENT

/-! ## The property store -/

/-- The in-memory overlay of a `PropertyStore` instance: `modified` is the
dict of pending writes, `removed` the set of pending deletions. -/
structure Store where
  modified : List (EffKey × Value)
  removed : List EffKey
deriving DecidableEq

/-- A freshly constructed store (`__init__`): empty overlay. -/
def emptyStore : Store := ⟨[], []⟩

/-- The outcome of one store operation: the store state, the filesystem
state, and the returned value or raised error. -/
structure OpRes (α : Type) where
  store : Store
  fs : FS
  out : Except Err α

/-- Modelled from the spec: `validKey` lives in
`txdav.base.propertystore.base`, which is not under `src/`.  Per spec
§4.4, `set` validates the name against the store's accepted-key
predicate, which rejects structurally invalid names such as an empty
namespace. -/
def validKey (key : PropertyName) : Bool := !key.ns.isEmpty

/-- `PropertyStore._setitem_uid`: drop the effective key from `removed`
if present, then stage the value in `modified`. -/
def setitem_uid (s : Store) (key : PropertyName) (v : Value) (uid : Option ByteStr) :
    Store × Except Err Unit :=
  if validKey key then
    let ek : EffKey := (key, uid)
    let removed := if ek ∈ s.removed then setRemove s.removed ek else s.removed
    ({ modified := assocSet s.modified ek v, removed := removed }, .ok ())
  else (s, .error .invalidKey)

/--
The value-decode tail of `PropertyStore._getitem_uid` (the comment block
"Unserialize XML data from an xattr" onward): try `decompress`, then
`WebDAVDocument.fromString`, then `unpickle`; when the value was read in
a legacy form, restage it via `_setitem_uid` so the next flush rewrites
it in the current format. -/
def decodeValuePhase (s : Store) (key : PropertyName) (uid : Option ByteStr) (data : Blob) :
    Store × Except Err Value :=
  let p := match decompress data with
    | some d => (d, false)
    | none => (data, true)
  match docFromString p.1 with
  | some doc =>
    if p.2 then ((setitem_uid s key doc uid).1, .ok doc) else (s, .ok doc)
  | none =>
    match loadsPickle p.1 with
    | some doc => ((setitem_uid s key doc uid).1, .ok doc)
    | none => (s, .error .storeError)

/-- `PropertyStore._getitem_uid`. -/
def getitem_uid (s : Store) (fs : FS) (key : PropertyName) (uid : Option ByteStr) :
    OpRes Value :=
  if ¬ validKey key then ⟨s, fs, .error .invalidKey⟩
  else
    let ek : EffKey := (key, uid)
    match lookupA s.modified ek with
    | some v => ⟨s, fs, .ok v⟩
    | none =>
      if ek ∈ s.removed then ⟨s, fs, .error .notFound⟩
      else
        match xattrGet fs (encodeKey ek) with
        | .ok data =>
          let r := decodeValuePhase s key uid data
          ⟨r.1, fs, r.2⟩
        | .error e =>
          if e = errnoNoAttr ∨ e = errnoENOENT then
            -- KeyError path: check for the uncompressed namespace form
            if (lookupA namespaceCompress key.ns).isSome then
              match xattrGet fs (encodeKey ek false) with
              | .error _ => ⟨s, fs, .error .notFound⟩
              | .ok data =>
                -- write it back using the compressed format
                match xattrSet fs (encodeKey ek) data with
                | .error _ => ⟨s, fs, .error .storeError⟩
                | .ok fs1 =>
                  match xattrDel fs1 (encodeKey ek false) with
                  | .error (.ioErrno _) => ⟨s, fs1, .error .storeError⟩
                  | .error .keyMissing => ⟨s, fs1, .error .notFound⟩
                  | .ok fs2 =>
                    let r := decodeValuePhase s key uid data
                    ⟨r.1, fs2, r.2⟩
            else ⟨s, fs, .error .notFound⟩
          else ⟨s, fs, .error .storeError⟩

/-- `PropertyStore._delitem_uid`. -/
def delitem_uid (s : Store) (fs : FS) (key : PropertyName) (uid : Option ByteStr) :
    OpRes Unit :=
  if ¬ validKey key then ⟨s, fs, .error .invalidKey⟩
  else
    let ek : EffKey := (key, uid)
    if (lookupA s.modified ek).isSome then
      ⟨{ modified := assocErase s.modified ek, removed := setAdd s.removed ek }, fs, .ok ()⟩
    else
      match xattrContains fs (encodeKey ek) with
      | .error e => ⟨s, fs, .error (.ioErr e)⟩
      | .ok b =>
        if !b then ⟨s, fs, .error .notFound⟩
        else ⟨{ s with removed := setAdd s.removed ek }, fs, .ok ()⟩

/-- The durable-enumeration loop of `PropertyStore._keys_uid`: decode each
attribute name, keep those matching the uid and not in `removed`, adding
each kept effective key to `seen`.  Returns the final `seen` set and the
yielded names. -/
def keysDurable (s : Store) (uid : Option ByteStr) :
    List ByteStr → List EffKey → Except Err (List EffKey × List PropertyName)
  | [], seen => .ok (seen, [])
  | n :: rest, seen =>
    match decodeKey n with
    | .error e => .error e
    | .ok ek =>
      if ek.2 = uid ∧ ek ∉ s.removed then
        match keysDurable s uid rest (ek :: seen) with
        | .error e => .error e
        | .ok q => .ok (q.1, ek.1 :: q.2)
      else keysDurable s uid rest seen

/-- `PropertyStore._keys_uid`, fully evaluated (the Python generator is
consumed in order: first the durable attribute names, then `modified`). -/
def keys_uid (s : Store) (fs : FS) (uid : Option ByteStr) : Except Err (List PropertyName) :=
  let names := if fs.pathExists then fs.attrs.map Prod.fst else []
  match keysDurable s uid names [] with
  | .error e => .error e
  | .ok q =>
    .ok (q.2 ++ s.modified.filterMap (fun p =>
      if p.1.2 = uid ∧ p.1 ∉ q.1 then some p.1.1 else none))

/-- The removal loop of `PropertyStore.flush`: `assert key not in
modified`, delete the attribute, treat `KeyError` and `IOError` with
`_ERRNO_NO_ATTR` as success, re-raise any other `IOError`. -/
def flushRemoveLoop (modKeys : List EffKey) : List EffKey → FS → FS × Option Err
  | [], fs => (fs, none)
  | k :: rest, fs =>
    if k ∈ modKeys then (fs, some .assertionErr)
    else
      match xattrDel fs (encodeKey k) with
      | .ok fs1 => flushRemoveLoop modKeys rest fs1
      | .error .keyMissing => flushRemoveLoop modKeys rest fs
      | .error (.ioErrno e) =>
        if e ≠ errnoNoAttr then (fs, some (.ioErr e)) else flushRemoveLoop modKeys rest fs

/-- The write loop of `PropertyStore.flush`: `assert key not in removed`,
then write `compress(value.toxml())` under the compressed key. -/
def flushWriteLoop (remKeys : List EffKey) : List (EffKey × Value) → FS → FS × Option Err
  | [], fs => (fs, none)
  | (k, v) :: rest, fs =>
    if k ∈ remKeys then (fs, some .assertionErr)
    else
      match xattrSet fs (encodeKey k) (Blob.zlibData (Blob.docText v)) with
      | .ok fs1 => flushWriteLoop remKeys rest fs1
      | .error e => (fs, some (.ioErr e))

/-- `PropertyStore.flush`.  `self.path.changed()` is a path-cache refresh
with no modelled effect; if the path no longer exists the method returns
at once.  The overlay is cleared only when both loops run to completion. -/
def flush (s : Store) (fs : FS) : OpRes Unit :=
  if ¬ fs.pathExists then ⟨s, fs, .ok ()⟩
  else
    match flushRemoveLoop (s.modified.map Prod.fst) s.removed fs with
    | (fs1, some e) => ⟨s, fs1, .error e⟩
    | (fs1, none) =>
      match flushWriteLoop s.removed s.modified fs1 with
      | (fs2, some e) => ⟨s, fs2, .error e⟩
      | (fs2, none) => ⟨⟨[], []⟩, fs2, .ok ()⟩

/-- `PropertyStore.abort`: clear both overlay sets. -/
def abort (s : Store) : Store := { s with modified := [], removed := [] }

/-- One public operation against a store, for stating whole-lifecycle
invariants. -/
inductive Op where
  | opGet (key : PropertyName) (uid : Option ByteStr)
  | opSet (key : PropertyName) (v : Value) (uid : Option ByteStr)
  | opDel (key : PropertyName) (uid : Option ByteStr)
  | opFlush
  | opAbort

/-- Run one operation, keeping the resulting store and filesystem. -/
def stepOp (p : Store × FS) (op : Op) : Store × FS :=
  match op with
  | .opGet k u => let r := getitem_uid p.1 p.2 k u; (r.store, r.fs)
  | .opSet k v u => ((setitem_uid p.1 k v u).1, p.2)
  | .opDel k u => let r := delitem_uid p.1 p.2 k u; (r.store, r.fs)
  | .opFlush => let r := flush p.1 p.2; (r.store, r.fs)
  | .opAbort => (abort p.1, p.2)

/-- Run a sequence of operations. -/
def runOps (ops : List Op) (p : Store × FS) : Store × FS := ops.foldl stepOp p

/-- The overlay invariant: no effective key is both staged in `modified`
and marked in `removed`. -/
def DisjointOv (s : Store) : Prop :=
  ∀ ek ∈ s.modified.map Prod.fst, ek ∉ s.removed

instance (s : Store) : Decidable (DisjointOv s) :=
  inferInstanceAs (Decidable (∀ ek ∈ s.modified.map Prod.fst, ek ∉ s.removed))

/-- A sample filesystem with an existing, attribute-less backing file and
no injected faults, for concrete witnesses. -/
def fsSample : FS :=
  ⟨true, [], fun _ => none, fun _ => none, fun _ => none⟩

/-- The durable contribution of `_keys_uid`, stated directly: one
`PropertyName` per durable attribute name whose decoded effective key
matches the uid and is not in `removed` (no deduplication across
attribute names). -/
def durableKeyNames (s : Store) (uid : Option ByteStr) (names : List ByteStr) :
    List PropertyName :=
  names.filterMap (fun n =>
    match decodeKey n with
    | .ok ek => if ek.2 = uid ∧ ek ∉ s.removed then some ek.1 else none
    | .error _ => none)

/-- The effective keys the durable pass of `_keys_uid` records as seen. -/
def durableSeen (s : Store) (uid : Option ByteStr) (names : List ByteStr) : List EffKey :=
  names.filterMap (fun n =>
    match decodeKey n with
    | .ok ek => if ek.2 = uid ∧ ek ∉ s.removed then some ek else none
    | .error _ => none)

/-! ## Theorems: the percent codec -/

theorem pyUnquote_nil : pyUnquote [] = [] := rfl

theorem pyUnquote_cons_ne (c : Byte) (l : ByteStr) (h : c ≠ pctB) :
    pyUnquote (c :: l) = c :: pyUnquote l := by
  match l with
  | [] => simp [pyUnquote]
  | [a] => simp [pyUnquote]
  | a :: b :: t => simp [pyUnquote, h]

theorem isSafeByte_ne_pct {c : Byte} (h : isSafeByte c = true) : c ≠ pctB := by
  intro he
  rw [he] at h
  exact absurd h (by decide)

theorem hexDigitB_spec : ∀ n < 16, isHexDigit (hexDigitB n) = true ∧ hexVal (hexDigitB n) = n := by
  decide

theorem hexByte_hexDigitB (c : Byte) :
    hexByte (hexDigitB (c.val / 16)) (hexDigitB (c.val % 16)) = c := by
  have h1 : c.val / 16 < 16 := by
    have := c.isLt
    omega
  have h2 : c.val % 16 < 16 := Nat.mod_lt _ (by decide)
  have e1 := (hexDigitB_spec _ h1).2
  have e2 := (hexDigitB_spec _ h2).2
  apply Fin.ext
  show (hexVal _ * 16 + hexVal _) % 256 = c.val
  rw [e1, e2]
  have : c.val / 16 * 16 + c.val % 16 = c.val := by
    have := Nat.div_add_mod c.val 16
    omega
  rw [this, Nat.mod_eq_of_lt c.isLt]

theorem pyUnquote_pyQuote (s : ByteStr) : pyUnquote (pyQuote s) = s := by
  induction s with
  | nil => rfl
  | cons c t ih =>
    show pyUnquote (quoteChar c ++ pyQuote t) = c :: t
    by_cases hs : isSafeByte c = true
    · rw [show quoteChar c = [c] from by simp [quoteChar, hs]]
      rw [List.cons_append, List.nil_append,
        pyUnquote_cons_ne c _ (isSafeByte_ne_pct hs), ih]
    · rw [show quoteChar c = [pctB, hexDigitB (c.val / 16), hexDigitB (c.val % 16)] from by
        simp [quoteChar, hs]]
      have h1 : c.val / 16 < 16 := by
        have := c.isLt
        omega
      have h2 : c.val % 16 < 16 := Nat.mod_lt _ (by decide)
      show pyUnquote (pctB :: _ :: _ :: pyQuote t) = c :: t
      rw [pyUnquote]
      rw [if_pos ⟨rfl, (hexDigitB_spec _ h1).1, (hexDigitB_spec _ h2).1⟩]
      rw [hexByte_hexDigitB, ih]

/-! ## Association-list and set lemmas -/

theorem lookupA_assocSet_self {α β : Type} [DecidableEq α] (l : List (α × β)) (k : α) (v : β) :
    lookupA (assocSet l k v) k = some v := by
  induction l with
  | nil => simp [assocSet, lookupA]
  | cons p t ih =>
    obtain ⟨a, b⟩ := p
    by_cases h : a = k
    · simp [assocSet, h, lookupA]
    · simp [assocSet, h, lookupA, ih]

theorem lookupA_assocSet_ne {α β : Type} [DecidableEq α] (l : List (α × β)) (k k' : α) (v : β)
    (h : k ≠ k') : lookupA (assocSet l k v) k' = lookupA l k' := by
  induction l with
  | nil => simp [assocSet, lookupA, h]
  | cons p t ih =>
    obtain ⟨a, b⟩ := p
    by_cases ha : a = k
    · subst ha
      simp [assocSet, lookupA, h]
    · simp [assocSet, ha, lookupA, ih]

theorem lookupA_eq_none {α β : Type} [DecidableEq α] (l : List (α × β)) (k : α) :
    lookupA l k = none ↔ k ∉ l.map Prod.fst := by
  induction l with
  | nil => simp [lookupA]
  | cons p t ih =>
    obtain ⟨a, b⟩ := p
    by_cases h : a = k
    · subst h
      simp [lookupA]
    · simp [lookupA, h, ih, Ne.symm h]

theorem assocErase_cons {α β : Type} [DecidableEq α] (a : α) (b : β) (t : List (α × β))
    (k : α) :
    assocErase ((a, b) :: t) k =
      if a = k then assocErase t k else (a, b) :: assocErase t k := by
  by_cases h : a = k <;> simp [assocErase, List.filter_cons, h]

theorem lookupA_assocErase_self {α β : Type} [DecidableEq α] (l : List (α × β)) (k : α) :
    lookupA (assocErase l k) k = none := by
  induction l with
  | nil => simp [assocErase, lookupA]
  | cons p t ih =>
    obtain ⟨a, b⟩ := p
    rw [assocErase_cons]
    by_cases h : a = k
    · simpa [h] using ih
    · simpa [h, lookupA] using ih

theorem lookupA_assocErase_ne {α β : Type} [DecidableEq α] (l : List (α × β)) (k k' : α)
    (h : k' ≠ k) : lookupA (assocErase l k) k' = lookupA l k' := by
  induction l with
  | nil => simp [assocErase, lookupA]
  | cons p t ih =>
    obtain ⟨a, b⟩ := p
    rw [assocErase_cons]
    by_cases ha : a = k
    · subst ha
      simpa [lookupA, Ne.symm h] using ih
    · by_cases hb : a = k'
      · subst hb
        simp [ha, lookupA]
      · simpa [ha, lookupA, hb] using ih

theorem mem_keys_assocSet {α β : Type} [DecidableEq α] (l : List (α × β)) (k x : α) (v : β)
    (h : x ∈ (assocSet l k v).map Prod.fst) : x = k ∨ x ∈ l.map Prod.fst := by
  induction l with
  | nil =>
    simp [assocSet] at h
    exact Or.inl h
  | cons p t ih =>
    obtain ⟨a, b⟩ := p
    by_cases ha : a = k
    · rw [show assocSet ((a, b) :: t) k v = (k, v) :: t from by simp [assocSet, ha]] at h
      simp only [List.map_cons, List.mem_cons] at h ⊢
      rcases h with h | h
      · exact Or.inl h
      · exact Or.inr (Or.inr h)
    · rw [show assocSet ((a, b) :: t) k v = (a, b) :: assocSet t k v from by
        simp [assocSet, ha]] at h
      simp only [List.map_cons, List.mem_cons] at h ⊢
      rcases h with h | h
      · exact Or.inr (Or.inl h)
      · rcases ih h with h' | h'
        · exact Or.inl h'
        · exact Or.inr (Or.inr h')

theorem mem_keys_assocErase {α β : Type} [DecidableEq α] (l : List (α × β)) (k x : α)
    (h : x ∈ (assocErase l k).map Prod.fst) : x ∈ l.map Prod.fst ∧ x ≠ k := by
  rcases List.mem_map.mp h with ⟨p, hp, he⟩
  simp only [assocErase] at hp
  rcases List.mem_filter.mp hp with ⟨hm, hcond⟩
  subst he
  refine ⟨List.mem_map.mpr ⟨p, hm, rfl⟩, ?_⟩
  simpa using hcond

theorem mem_setAdd {α : Type} [DecidableEq α] (l : List α) (x y : α) :
    x ∈ setAdd l y ↔ x = y ∨ x ∈ l := by
  by_cases h : y ∈ l
  · simp only [setAdd, if_pos h]
    constructor
    · exact Or.inr
    · rintro (rfl | hx)
      · exact h
      · exact hx
  · simp [setAdd, h]

theorem mem_setRemove {α : Type} [DecidableEq α] (l : List α) (x y : α) :
    x ∈ setRemove l y ↔ x ∈ l ∧ x ≠ y := by
  simp [setRemove, List.mem_filter]

/-! ## Overlay disjointness -/

theorem disjointOv_empty : DisjointOv emptyStore := by
  intro ek h
  simp [emptyStore] at h

theorem disjointOv_setitem (s : Store) (key : PropertyName) (v : Value) (uid : Option ByteStr)
    (h : DisjointOv s) : DisjointOv (setitem_uid s key v uid).1 := by
  unfold setitem_uid
  by_cases hv : validKey key = true
  · rw [if_pos hv]
    intro x hx hmem
    have hmem' : x ∈ s.removed ∧ (x = (key, uid) → (key, uid) ∉ s.removed) := by
      simp only at hmem
      split_ifs at hmem with hc
      · rcases (mem_setRemove _ _ _).mp hmem with ⟨h1, h2⟩
        exact ⟨h1, fun he => (h2 he).elim⟩
      · exact ⟨hmem, fun _ => hc⟩
    rcases mem_keys_assocSet _ _ _ _ hx with rfl | hx'
    · exact hmem'.2 rfl hmem'.1
    · exact h x hx' hmem'.1
  · rw [if_neg hv]
    exact h

theorem decodeValuePhase_store (s : Store) (key : PropertyName) (uid : Option ByteStr)
    (data : Blob) :
    (decodeValuePhase s key uid data).1 = s ∨
    ∃ v, (decodeValuePhase s key uid data).1 = (setitem_uid s key v uid).1 := by
  unfold decodeValuePhase
  cases data with
  | zlibData b =>
    cases b with
    | zlibData c => exact Or.inl rfl
    | docText v => exact Or.inl rfl
    | pickleData v => exact Or.inr ⟨v, rfl⟩
    | junk => exact Or.inl rfl
  | docText v => exact Or.inr ⟨v, rfl⟩
  | pickleData v => exact Or.inr ⟨v, rfl⟩
  | junk => exact Or.inl rfl

theorem getitem_uid_store (s : Store) (fs : FS) (key : PropertyName) (uid : Option ByteStr) :
    (getitem_uid s fs key uid).store = s ∨
    ∃ v, (getitem_uid s fs key uid).store = (setitem_uid s key v uid).1 := by
  unfold getitem_uid
  dsimp only
  repeat' split
  all_goals first
    | exact Or.inl rfl
    | exact decodeValuePhase_store s key uid _

theorem disjointOv_delitem (s : Store) (fs : FS) (key : PropertyName) (uid : Option ByteStr)
    (h : DisjointOv s) : DisjointOv (delitem_uid s fs key uid).store := by
  unfold delitem_uid
  dsimp only
  split
  · exact h
  · split
    · intro x hx hmem
      rcases mem_keys_assocErase _ _ _ hx with ⟨hx', hne⟩
      rcases (mem_setAdd _ _ _).mp hmem with rfl | hr
      · exact hne rfl
      · exact h x hx' hr
    · next hlook =>
      split
      · exact h
      · split
        · exact h
        · intro x hx hmem
          rcases (mem_setAdd _ _ _).mp hmem with rfl | hr
          · exact (lookupA_eq_none s.modified (key, uid)).mp
              (Option.not_isSome_iff_eq_none.mp hlook) hx
          · exact h x hx hr

theorem flush_store (s : Store) (fs : FS) :
    (flush s fs).store = s ∨ (flush s fs).store = ⟨[], []⟩ := by
  unfold flush
  repeat' split
  all_goals first | exact Or.inl rfl | exact Or.inr rfl

theorem disjointOv_stepOp (p : Store × FS) (op : Op) (h : DisjointOv p.1) :
    DisjointOv (stepOp p op).1 := by
  cases op with
  | opGet k u =>
    show DisjointOv (getitem_uid p.1 p.2 k u).store
    rcases getitem_uid_store p.1 p.2 k u with he | ⟨v, he⟩
    · rw [he]; exact h
    · rw [he]; exact disjointOv_setitem p.1 k v u h
  | opSet k v u => exact disjointOv_setitem p.1 k v u h
  | opDel k u => exact disjointOv_delitem p.1 p.2 k u h
  | opFlush =>
    show DisjointOv (flush p.1 p.2).store
    rcases flush_store p.1 p.2 with he | he
    · rw [he]; exact h
    · rw [he]; intro x hx; simp at hx
  | opAbort =>
    intro x hx
    simp [stepOp, abort] at hx

theorem disjointOv_runOps (ops : List Op) (p : Store × FS) (h : DisjointOv p.1) :
    DisjointOv (runOps ops p).1 := by
  induction ops generalizing p with
  | nil => exact h
  | cons op rest ih => exact ih (stepOp p op) (disjointOv_stepOp p op h)

/-- **C2** (overlay disjointness invariant): starting from any store whose
`modified` map and `removed` set are disjoint (in particular a fresh
store), no sequence of `get` / `set` / `delete` / `flush` / `abort`
operations ever produces a state in which an effective key is present in
both `modified` and `removed`. -/
theorem claim_C2_overlay_disjoint (ops : List Op) (s : Store) (fs : FS)
    (h : DisjointOv s) : DisjointOv (runOps ops (s, fs)).1 :=
  disjointOv_runOps ops (s, fs) h

/-- Witness for C2: a concrete set-delete-flush run from a fresh store. -/
theorem claim_C2_witness :
    DisjointOv emptyStore ∧
    DisjointOv (runOps
      [Op.opSet ⟨bs "ns1", bs "color"⟩ "blue" none,
       Op.opDel ⟨bs "ns1", bs "color"⟩ none,
       Op.opFlush]
      (emptyStore, fsSample)).1 :=
  ⟨by decide, claim_C2_overlay_disjoint _ _ _ (by decide)⟩

/-! ## Flush on a missing target (C10) -/

/-- **C10** (flush on a missing target preserves the overlay): when the
path does not exist at flush time, `flush` returns immediately with no
attribute I/O and both overlay sets exactly as they were, so the staged
changes remain applicable by a later flush. -/
theorem claim_C10_flush_missing_noop (s : Store) (fs : FS) (h : fs.pathExists = false) :
    flush s fs = ⟨s, fs, .ok ()⟩ := by
  simp [flush, h]

/-- Witness for C10: a non-empty overlay survives a flush against a
missing file untouched. -/
theorem claim_C10_witness :
    (FS.mk false [] (fun _ => none) (fun _ => none) (fun _ => none)).pathExists = false ∧
    flush ⟨[((⟨bs "ns1", bs "color"⟩, none), "blue")], [(⟨bs "ns1", bs "x"⟩, none)]⟩
        (FS.mk false [] (fun _ => none) (fun _ => none) (fun _ => none)) =
      ⟨⟨[((⟨bs "ns1", bs "color"⟩, none), "blue")], [(⟨bs "ns1", bs "x"⟩, none)]⟩,
        FS.mk false [] (fun _ => none) (fun _ => none) (fun _ => none), .ok ()⟩ :=
  ⟨rfl, claim_C10_flush_missing_noop _ _ rfl⟩

/-! ## Round-trip persistence (C1) -/

/-- **C1** (round-trip persistence): for every valid `PropertyName`,
value and uid, `set` on a fresh store, then `flush` with the backing path
existing (and no injected I/O fault on the written attribute), then `get`
on a fresh store instance over the resulting filesystem returns the value
that was set. -/
theorem claim_C1_roundtrip (fs : FS) (key : PropertyName) (uid : Option ByteStr) (v : Value)
    (hvalid : validKey key = true)
    (hpath : fs.pathExists = true)
    (hw : fs.writeFault (encodeKey (key, uid)) = none)
    (hr : fs.readFault (encodeKey (key, uid)) = none) :
    (flush (setitem_uid emptyStore key v uid).1 fs).out = .ok () ∧
    (getitem_uid emptyStore (flush (setitem_uid emptyStore key v uid).1 fs).fs key uid).out
      = .ok v := by
  have hs1 : (setitem_uid emptyStore key v uid).1 = ⟨[((key, uid), v)], []⟩ := by
    simp [setitem_uid, hvalid, emptyStore, assocSet]
  rw [hs1]
  have hf : flush (⟨[((key, uid), v)], []⟩ : Store) fs =
      ⟨⟨[], []⟩,
        { fs with attrs := assocSet fs.attrs (encodeKey (key, uid)) (Blob.zlibData (Blob.docText v)) },
        .ok ()⟩ := by
    simp [flush, hpath, flushRemoveLoop, flushWriteLoop, xattrSet, hw]
  rw [hf]
  refine ⟨rfl, ?_⟩
  simp [getitem_uid, hvalid, emptyStore, lookupA, xattrGet, hr, hpath,
    lookupA_assocSet_self, decodeValuePhase, decompress, docFromString]

/-- Witness for C1 at a concrete key and value. -/
theorem claim_C1_witness :
    validKey ⟨bs "ns1", bs "color"⟩ = true ∧
    fsSample.pathExists = true ∧
    fsSample.writeFault (encodeKey (⟨bs "ns1", bs "color"⟩, none)) = none ∧
    fsSample.readFault (encodeKey (⟨bs "ns1", bs "color"⟩, none)) = none ∧
    (flush (setitem_uid emptyStore ⟨bs "ns1", bs "color"⟩ "blue" none).1 fsSample).out
      = .ok () ∧
    (getitem_uid emptyStore
        (flush (setitem_uid emptyStore ⟨bs "ns1", bs "color"⟩ "blue" none).1 fsSample).fs
        ⟨bs "ns1", bs "color"⟩ none).out = .ok "blue" := by
  have h := claim_C1_roundtrip fsSample ⟨bs "ns1", bs "color"⟩ none "blue"
    (by decide) rfl rfl rfl
  exact ⟨by decide, rfl, rfl, rfl, h.1, h.2⟩

/-! ## Key-codec reversibility (C3) -/

theorem findOpt_append_not_mem (c : Byte) (l1 l2 : ByteStr) (h : c ∉ l1) :
    findOpt c (l1 ++ l2) = (findOpt c l2).map (· + l1.length) := by
  induction l1 with
  | nil => cases hfo : findOpt c l2 <;> simp [hfo]
  | cons a t ih =>
    have ha : ¬ a = c := fun he => h (he ▸ List.mem_cons_self a t)
    have ht : c ∉ t := fun hm => h (List.mem_cons_of_mem a hm)
    rw [List.cons_append]
    rw [show findOpt c (a :: (t ++ l2)) = (findOpt c (t ++ l2)).map (· + 1) from by
      simp [findOpt, ha]]
    rw [ih ht]
    cases hfo : findOpt c l2 <;> simp [hfo, Nat.add_assoc]

theorem decode_encode_al (ns al name : ByteStr)
    (hc : lookupA namespaceCompress ns = some al)
    (hnb : rbB ∉ al)
    (he : lookupA namespaceExpand al = some ns) :
    decodeKey (encodeKey (⟨ns, name⟩, none)) = .ok (⟨ns, name⟩, none) := by
  have henc : encodeKey ((⟨ns, name⟩ : PropertyName), none) =
      deadPropertyXattrPre ++ pyQuote (lbB :: al ++ rbB :: name) := by
    simp [encodeKey, hc]
  rw [henc]
  unfold decodeKey
  rw [List.drop_left, pyUnquote_pyQuote]
  have hf1 : findOpt lbB (lbB :: al ++ rbB :: name) = some 0 := by
    simp [findOpt]
  have hf2 : findOpt rbB (lbB :: al ++ rbB :: name) = some (al.length + 1) := by
    rw [show lbB :: al ++ rbB :: name = (lbB :: al) ++ rbB :: name from rfl]
    rw [findOpt_append_not_mem rbB (lbB :: al) (rbB :: name)
      (by simp [hnb]; decide)]
    simp [findOpt]
  dsimp only
  rw [hf1, hf2]
  dsimp only
  have hlen : (lbB :: al ++ rbB :: name).length > al.length + 1 := by
    simp
  rw [if_neg (not_not_intro hlen)]
  have hns : ((lbB :: al ++ rbB :: name).drop (0 + 1)).take (al.length + 1 - (0 + 1)) =
      al := by
    simp [List.take_left]
  have hpn : (lbB :: al ++ rbB :: name).drop (al.length + 1 + 1) = name := by
    rw [show al.length + 1 + 1 = (lbB :: al).length + 1 from by simp]
    rw [show lbB :: al ++ rbB :: name = (lbB :: al) ++ rbB :: name from rfl]
    rw [List.drop_append]
    rfl
  simp [hns, hpn, he]

/-- **C3** (key codec reversibility): for every namespace in the static
compression table and every local name, decoding the encoded attribute
name of the effective key `((ns, name), None)` returns exactly
`((ns, name), None)`: the alias expands back to the full namespace and
the local name is unchanged. -/
theorem claim_C3_codec_reversible (ns : ByteStr) (name : ByteStr)
    (h : ns ∈ namespaceCompress.map Prod.fst) :
    decodeKey (encodeKey (⟨ns, name⟩, none)) = .ok (⟨ns, name⟩, none) := by
  simp only [namespaceCompress, List.map_cons, List.map_nil, List.mem_cons,
    List.not_mem_nil, or_false] at h
  rcases h with rfl | rfl | rfl | rfl | rfl | rfl
  · exact decode_encode_al _ (bs "CALDAV:") name (by decide) (by decide) (by decide)
  · exact decode_encode_al _ (bs "CARDDAV:") name (by decide) (by decide) (by decide)
  · exact decode_encode_al _ (bs "CS:") name (by decide) (by decide) (by decide)
  · exact decode_encode_al _ (bs "ME:") name (by decide) (by decide) (by decide)
  · exact decode_encode_al _ (bs "TD:") name (by decide) (by decide) (by decide)
  · exact decode_encode_al _ (bs "TDP:") name (by decide) (by decide) (by decide)

/-- Witness for C3 at the caldav namespace and a concrete local name. -/
theorem claim_C3_witness :
    (bs "urn:ietf:params:xml:ns:caldav") ∈ namespaceCompress.map Prod.fst ∧
    decodeKey (encodeKey (⟨bs "urn:ietf:params:xml:ns:caldav", bs "getctag"⟩, none)) =
      .ok (⟨bs "urn:ietf:params:xml:ns:caldav", bs "getctag"⟩, none) :=
  ⟨by decide, claim_C3_codec_reversible _ _ (by decide)⟩

/-! ## Key decoding failure conditions (C8) -/

theorem findOpt_some_lt (c : Byte) (l : ByteStr) (i : Nat) (h : findOpt c l = some i) :
    i < l.length := by
  induction l generalizing i with
  | nil => simp [findOpt] at h
  | cons a t ih =>
    by_cases ha : a = c
    · simp [findOpt, ha] at h
      simp only [List.length_cons]
      omega
    · simp [findOpt, ha] at h
      rcases h with ⟨j, hj, hji⟩
      have := ih j hj
      simp only [List.length_cons]
      omega

/-- Counterexample to **C8** as stated: the decoder never checks that the
store's attribute-name lead string is present; it blindly strips its
length.  A name that does not start with `"user."` still decodes
successfully. -/
theorem claim_C8_counterexample :
    decodeKey (bs "AAAAA{x}y") = .ok (⟨bs "x", bs "y"⟩, none) ∧
    (bs "AAAAA{x}y").take deadPropertyXattrPre.length ≠ deadPropertyXattrPre := by
  constructor
  · decide
  · decide

/-- **C8 (amended)** (key decoding failure conditions): decoding fails
with `MalformedKey` (a `ValueError`) exactly when, after blindly
stripping the first `len(prefix)` characters and percent-decoding, the
result contains no `{` or no `}`.  The presence of the store's
attribute-name lead string is never checked, and the
remainder-shorter-than-the-`}`-index condition can never fire (a found
index is always smaller than the length), so those two conditions of the
claim do not shape the failure set. -/
theorem claim_C8_decode_failure (name : ByteStr) :
    decodeKey name = .error .valueError ↔
      (findOpt lbB (pyUnquote (name.drop deadPropertyXattrPre.length)) = none ∨
       findOpt rbB (pyUnquote (name.drop deadPropertyXattrPre.length)) = none) := by
  unfold decodeKey
  dsimp only
  cases h1 : findOpt lbB (pyUnquote (name.drop deadPropertyXattrPre.length)) with
  | none =>
    cases h2 : findOpt rbB (pyUnquote (name.drop deadPropertyXattrPre.length)) <;> simp
  | some i1 =>
    cases h2 : findOpt rbB (pyUnquote (name.drop deadPropertyXattrPre.length)) with
    | none => simp
    | some i2 =>
      have hlt := findOpt_some_lt rbB _ i2 h2
      dsimp only
      rw [if_neg (not_not_intro hlt)]
      simp

/-! ## Asymmetric durable probe in delete (C9) -/

theorem lookupA_nil {α β : Type} [DecidableEq α] (a : α) :
    lookupA ([] : List (α × β)) a = none := rfl

/-- **C9** (asymmetric durable probe in delete): for an effective key not
in the overlay whose namespace is in the alias table and which is durably
stored only under the legacy uncompressed-namespace attribute name,
`delete` raises `NotFound` (it probes only the compressed name), while
`get` on the same store succeeds through the uncompressed fallback. -/
theorem claim_C9_delete_asymmetric (fs : FS) (key : PropertyName) (uid : Option ByteStr)
    (v : Value)
    (hvalid : validKey key = true)
    (hpath : fs.pathExists = true)
    (hcomp : (lookupA namespaceCompress key.ns).isSome = true)
    (hnc : lookupA fs.attrs (encodeKey (key, uid)) = none)
    (hunc : lookupA fs.attrs (encodeKey (key, uid) false) = some (Blob.zlibData (Blob.docText v)))
    (hrc : fs.readFault (encodeKey (key, uid)) = none)
    (hru : fs.readFault (encodeKey (key, uid) false) = none)
    (hwc : fs.writeFault (encodeKey (key, uid)) = none)
    (hdu : fs.delFault (encodeKey (key, uid) false) = none)
    (hne : encodeKey (key, uid) ≠ encodeKey (key, uid) false) :
    (delitem_uid emptyStore fs key uid).out = .error .notFound ∧
    (getitem_uid emptyStore fs key uid).out = .ok v := by
  constructor
  · simp [delitem_uid, hvalid, emptyStore, lookupA_nil, xattrContains, hpath, hnc]
  · simp [getitem_uid, hvalid, emptyStore, lookupA_nil, xattrGet, hrc, hpath, hnc,
      errnoNoAttr, hcomp, hru, hunc, xattrSet, hwc, xattrDel, hdu,
      lookupA_assocSet_ne _ _ _ _ hne, decodeValuePhase, decompress, docFromString]

/-- Witness for C9 at a concrete legacy-keyed attribute. -/
theorem claim_C9_witness :
    (delitem_uid emptyStore
      ⟨true, [(encodeKey (⟨bs "urn:ietf:params:xml:ns:caldav", bs "x"⟩, none) false, Blob.zlibData (Blob.docText "v"))], fun _ => none, fun _ => none, fun _ => none⟩
      ⟨bs "urn:ietf:params:xml:ns:caldav", bs "x"⟩ none).out = .error .notFound ∧
    (getitem_uid emptyStore
      ⟨true, [(encodeKey (⟨bs "urn:ietf:params:xml:ns:caldav", bs "x"⟩, none) false, Blob.zlibData (Blob.docText "v"))], fun _ => none, fun _ => none, fun _ => none⟩
      ⟨bs "urn:ietf:params:xml:ns:caldav", bs "x"⟩ none).out = .ok "v" :=
  claim_C9_delete_asymmetric _ _ none "v" (by decide) rfl (by decide) (by decide)
    (by decide) rfl rfl rfl rfl (by decide)

/-! ## Legacy value migration on read (C4) -/

/-- **C4** (legacy value migration on read): the value decode path of
`get` accepts, in order: compressed document text (the current form, not
restaged), raw document text, compressed pickle and raw pickle (the
legacy forms, each restaged into the overlay via an implicit `set`), and
otherwise fails with `PropertyStoreError`; and a flush of the restaged
overlay rewrites the attribute in the current compressed-document form. -/
theorem claim_C4_legacy_migration (fs : FS) (key : PropertyName) (uid : Option ByteStr)
    (v : Value)
    (hvalid : validKey key = true)
    (hpath : fs.pathExists = true)
    (hr : fs.readFault (encodeKey (key, uid)) = none) :
    (lookupA fs.attrs (encodeKey (key, uid)) = some (Blob.zlibData (Blob.docText v)) →
      (getitem_uid emptyStore fs key uid).out = .ok v ∧
      (getitem_uid emptyStore fs key uid).store = emptyStore) ∧
    (lookupA fs.attrs (encodeKey (key, uid)) = some (Blob.docText v) →
      (getitem_uid emptyStore fs key uid).out = .ok v ∧
      (getitem_uid emptyStore fs key uid).store = ⟨[((key, uid), v)], []⟩) ∧
    (lookupA fs.attrs (encodeKey (key, uid)) = some (Blob.zlibData (Blob.pickleData v)) →
      (getitem_uid emptyStore fs key uid).out = .ok v ∧
      (getitem_uid emptyStore fs key uid).store = ⟨[((key, uid), v)], []⟩) ∧
    (lookupA fs.attrs (encodeKey (key, uid)) = some (Blob.pickleData v) →
      (getitem_uid emptyStore fs key uid).out = .ok v ∧
      (getitem_uid emptyStore fs key uid).store = ⟨[((key, uid), v)], []⟩) ∧
    (lookupA fs.attrs (encodeKey (key, uid)) = some Blob.junk →
      (getitem_uid emptyStore fs key uid).out = .error .storeError) ∧
    (fs.writeFault (encodeKey (key, uid)) = none →
      lookupA (flush ⟨[((key, uid), v)], []⟩ fs).fs.attrs (encodeKey (key, uid))
        = some (Blob.zlibData (Blob.docText v))) := by
  refine ⟨fun h => ?_, fun h => ?_, fun h => ?_, fun h => ?_, fun h => ?_, fun hw => ?_⟩
  · simp [getitem_uid, hvalid, emptyStore, lookupA_nil, xattrGet, hr, hpath, h,
      decodeValuePhase, decompress, docFromString]
  · simp [getitem_uid, hvalid, emptyStore, lookupA_nil, xattrGet, hr, hpath, h,
      decodeValuePhase, decompress, docFromString, setitem_uid, assocSet]
  · simp [getitem_uid, hvalid, emptyStore, lookupA_nil, xattrGet, hr, hpath, h,
      decodeValuePhase, decompress, docFromString, loadsPickle, setitem_uid, assocSet]
  · simp [getitem_uid, hvalid, emptyStore, lookupA_nil, xattrGet, hr, hpath, h,
      decodeValuePhase, decompress, docFromString, loadsPickle, setitem_uid, assocSet]
  · simp [getitem_uid, hvalid, emptyStore, lookupA_nil, xattrGet, hr, hpath, h,
      decodeValuePhase, decompress, docFromString, loadsPickle]
  · simp [flush, hpath, flushRemoveLoop, flushWriteLoop, xattrSet, hw,
      lookupA_assocSet_self]

/-- Witness for C4: a raw-document-text legacy attribute is read, the
value is restaged, and the follow-up flush rewrites it compressed. -/
theorem claim_C4_witness :
    (getitem_uid emptyStore
      ⟨true, [(encodeKey (⟨bs "ns1", bs "color"⟩, none), Blob.docText "blue")], fun _ => none, fun _ => none, fun _ => none⟩
      ⟨bs "ns1", bs "color"⟩ none).out = .ok "blue" ∧
    (getitem_uid emptyStore
      ⟨true, [(encodeKey (⟨bs "ns1", bs "color"⟩, none), Blob.docText "blue")], fun _ => none, fun _ => none, fun _ => none⟩
      ⟨bs "ns1", bs "color"⟩ none).store = ⟨[((⟨bs "ns1", bs "color"⟩, none), "blue")], []⟩ ∧
    lookupA (flush ⟨[((⟨bs "ns1", bs "color"⟩, none), "blue")], []⟩
      ⟨true, [(encodeKey (⟨bs "ns1", bs "color"⟩, none), Blob.docText "blue")], fun _ => none, fun _ => none, fun _ => none⟩).fs.attrs
      (encodeKey (⟨bs "ns1", bs "color"⟩, none)) = some (Blob.zlibData (Blob.docText "blue")) := by
  have h := claim_C4_legacy_migration
    ⟨true, [(encodeKey (⟨bs "ns1", bs "color"⟩, none), Blob.docText "blue")], fun _ => none, fun _ => none, fun _ => none⟩
    ⟨bs "ns1", bs "color"⟩ none "blue" (by decide) rfl rfl
  have h2 := h.2.1 (by simp [lookupA])
  exact ⟨h2.1, h2.2, h.2.2.2.2.2 rfl⟩

/-! ## Uncompressed-key fallback in get (C5) -/

/-- **C5** (uncompressed-key fallback in get): with the effective key not
in the overlay and its namespace in the alias table — (a) when the
compressed-name read finds nothing and the uncompressed-name read
succeeds, `get` rewrites the data under the compressed name, deletes the
uncompressed-named attribute and returns the value; (b) when neither form
exists, `get` raises `NotFound`; (c) an unexpected I/O error (errno other
than `ENODATA`/`ENOENT`) during the primary durable read is wrapped as
`PropertyStoreError`, not surfaced as `NotFound`. -/
theorem claim_C5_uncompressed_fallback (fs : FS) (key : PropertyName) (uid : Option ByteStr)
    (v : Value) (e : Nat)
    (hvalid : validKey key = true)
    (hpath : fs.pathExists = true)
    (hcomp : (lookupA namespaceCompress key.ns).isSome = true) :
    (fs.readFault (encodeKey (key, uid)) = none →
     lookupA fs.attrs (encodeKey (key, uid)) = none →
     fs.readFault (encodeKey (key, uid) false) = none →
     lookupA fs.attrs (encodeKey (key, uid) false) = some (Blob.zlibData (Blob.docText v)) →
     fs.writeFault (encodeKey (key, uid)) = none →
     fs.delFault (encodeKey (key, uid) false) = none →
     encodeKey (key, uid) ≠ encodeKey (key, uid) false →
     (getitem_uid emptyStore fs key uid).out = .ok v ∧
     lookupA (getitem_uid emptyStore fs key uid).fs.attrs (encodeKey (key, uid))
       = some (Blob.zlibData (Blob.docText v)) ∧
     lookupA (getitem_uid emptyStore fs key uid).fs.attrs (encodeKey (key, uid) false)
       = none) ∧
    (fs.readFault (encodeKey (key, uid)) = none →
     lookupA fs.attrs (encodeKey (key, uid)) = none →
     fs.readFault (encodeKey (key, uid) false) = none →
     lookupA fs.attrs (encodeKey (key, uid) false) = none →
     (getitem_uid emptyStore fs key uid).out = .error .notFound) ∧
    (fs.readFault (encodeKey (key, uid)) = some e →
     e ≠ errnoNoAttr → e ≠ errnoENOENT →
     (getitem_uid emptyStore fs key uid).out = .error .storeError) := by
  refine ⟨fun h1 h2 h3 h4 h5 h6 hne => ?_, fun h1 h2 h3 h4 => ?_, fun h1 h2 h3 => ?_⟩
  · simp [getitem_uid, hvalid, emptyStore, lookupA_nil, xattrGet, h1, hpath, h2,
      errnoNoAttr, hcomp, h3, h4, xattrSet, h5, xattrDel, h6,
      lookupA_assocSet_ne _ _ _ _ hne, lookupA_assocSet_self, lookupA_assocErase_self,
      lookupA_assocErase_ne _ _ _ hne, decodeValuePhase, decompress, docFromString]
  · simp [getitem_uid, hvalid, emptyStore, lookupA_nil, xattrGet, h1, hpath, h2,
      errnoNoAttr, hcomp, h3, h4]
  · simp only [errnoNoAttr] at h2
    simp only [errnoENOENT] at h3
    simp [getitem_uid, hvalid, emptyStore, lookupA_nil, xattrGet, h1, hpath,
      errnoNoAttr, errnoENOENT, h2, h3]

/-- Witness for C5: all three branches at concrete filesystems. -/
theorem claim_C5_witness :
    (getitem_uid emptyStore
      ⟨true, [(encodeKey (⟨bs "urn:ietf:params:xml:ns:caldav", bs "y"⟩, none) false, Blob.zlibData (Blob.docText "w"))], fun _ => none, fun _ => none, fun _ => none⟩
      ⟨bs "urn:ietf:params:xml:ns:caldav", bs "y"⟩ none).out = .ok "w" ∧
    (getitem_uid emptyStore fsSample ⟨bs "urn:ietf:params:xml:ns:caldav", bs "y"⟩ none).out
      = .error .notFound ∧
    (getitem_uid emptyStore
      ⟨true, [], fun _ => some 13, fun _ => none, fun _ => none⟩
      ⟨bs "urn:ietf:params:xml:ns:caldav", bs "y"⟩ none).out = .error .storeError := by
  refine ⟨?_, ?_, ?_⟩
  · exact ((claim_C5_uncompressed_fallback _ _ none "w" 0 (by decide) rfl (by decide)).1
      rfl (by decide) rfl (by decide) rfl rfl (by decide)).1
  · exact (claim_C5_uncompressed_fallback fsSample _ none "w" 0 (by decide) rfl
      (by decide)).2.1 rfl rfl rfl rfl
  · exact (claim_C5_uncompressed_fallback _ _ none "w" 13 (by decide) rfl
      (by decide)).2.2 rfl (by decide) (by decide)

/-! ## Flush removal semantics (C7) -/

/-- Counterexample to **C7** as stated: an unexpected I/O failure (errno
13, `EACCES`) during the deletion aborts the flush with the raw
`IOError`, which is not a `PropertyStoreError` — `flush` re-raises the
exception unwrapped. -/
theorem claim_C7_counterexample :
    (flush ⟨[], [(⟨bs "ns1", bs "x"⟩, none)]⟩
      ⟨true, [], fun _ => none, fun _ => none,
        fun n => if n = encodeKey (⟨bs "ns1", bs "x"⟩, none) then some 13 else none⟩).out
      = .error (.ioErr 13) ∧
    Err.ioErr 13 ≠ Err.storeError := by
  constructor
  · decide
  · decide

/-- **C7 (amended)** (flush removal semantics): for a key staged in
`removed`, `flush` deletes the corresponding durable attribute, treating
an already-absent attribute (`KeyError`, or `IOError` with the
no-attribute errno) as success and clearing the overlay; but any other
I/O failure during the deletion aborts the flush, leaves the overlay
intact, and is propagated to the caller as the raw `IOError`, not
wrapped as `PropertyStoreError`. -/
theorem claim_C7_flush_removal (fs : FS) (k : EffKey) (e : Nat)
    (hpath : fs.pathExists = true) :
    (fs.delFault (encodeKey k) = none →
     (flush ⟨[], [k]⟩ fs).out = .ok () ∧
     lookupA (flush ⟨[], [k]⟩ fs).fs.attrs (encodeKey k) = none ∧
     (flush ⟨[], [k]⟩ fs).store = ⟨[], []⟩) ∧
    (fs.delFault (encodeKey k) = some errnoNoAttr →
     (flush ⟨[], [k]⟩ fs).out = .ok () ∧
     (flush ⟨[], [k]⟩ fs).store = ⟨[], []⟩) ∧
    (fs.delFault (encodeKey k) = some e → e ≠ errnoNoAttr →
     (flush ⟨[], [k]⟩ fs).out = .error (.ioErr e) ∧
     (flush ⟨[], [k]⟩ fs).store = ⟨[], [k]⟩ ∧
     (flush ⟨[], [k]⟩ fs).out ≠ .error .storeError) := by
  refine ⟨fun hd => ?_, fun hd => ?_, fun hd hne => ?_⟩
  · cases hl : lookupA fs.attrs (encodeKey k) with
    | some b =>
      simp [flush, hpath, flushRemoveLoop, flushWriteLoop, xattrDel, hd, hl,
        lookupA_assocErase_self]
    | none =>
      simp [flush, hpath, flushRemoveLoop, flushWriteLoop, xattrDel, hd, hl]
  · simp [flush, hpath, flushRemoveLoop, flushWriteLoop, xattrDel, hd]
  · simp [flush, hpath, flushRemoveLoop, flushWriteLoop, xattrDel, hd, hne]

/-- Witness for C7 (amended): a present attribute is deleted on flush, an
injected `ENODATA` is tolerated, and an injected `EACCES` aborts with the
raw errno. -/
theorem claim_C7_witness :
    ((flush ⟨[], [(⟨bs "ns1", bs "x"⟩, none)]⟩
      ⟨true, [(encodeKey (⟨bs "ns1", bs "x"⟩, none), Blob.docText "v")], fun _ => none, fun _ => none, fun _ => none⟩).out = .ok () ∧
     lookupA (flush ⟨[], [(⟨bs "ns1", bs "x"⟩, none)]⟩
      ⟨true, [(encodeKey (⟨bs "ns1", bs "x"⟩, none), Blob.docText "v")], fun _ => none, fun _ => none, fun _ => none⟩).fs.attrs
      (encodeKey (⟨bs "ns1", bs "x"⟩, none)) = none ∧
     (flush ⟨[], [(⟨bs "ns1", bs "x"⟩, none)]⟩
      ⟨true, [(encodeKey (⟨bs "ns1", bs "x"⟩, none), Blob.docText "v")], fun _ => none, fun _ => none, fun _ => none⟩).store = ⟨[], []⟩) ∧
    ((flush ⟨[], [(⟨bs "ns1", bs "x"⟩, none)]⟩
      ⟨true, [], fun _ => none, fun _ => none, fun _ => some 61⟩).out = .ok ()) ∧
    ((flush ⟨[], [(⟨bs "ns1", bs "x"⟩, none)]⟩
      ⟨true, [], fun _ => none, fun _ => none, fun _ => some 13⟩).out ≠ .error .storeError) := by
  refine ⟨?_, ?_, ?_⟩
  · exact (claim_C7_flush_removal _ (⟨bs "ns1", bs "x"⟩, none) 0 rfl).1 rfl
  · exact ((claim_C7_flush_removal _ (⟨bs "ns1", bs "x"⟩, none) 0 rfl).2.1 rfl).1
  · exact ((claim_C7_flush_removal _ (⟨bs "ns1", bs "x"⟩, none) 13 rfl).2.2 rfl
      (by decide)).2.2

/-! ## Enumeration (C6) -/

/-- Counterexample to **C6** as stated: the `seen` set is consulted only
by the `modified` pass, not within the durable pass, so an effective key
stored durably under both the compressed and the uncompressed attribute
name is yielded twice by `list`. -/
theorem claim_C6_counterexample :
    keys_uid emptyStore
      ⟨true, [(encodeKey (⟨bs "http://calendarserver.org/ns/", bs "x"⟩, none), Blob.docText "v"),
              (encodeKey (⟨bs "http://calendarserver.org/ns/", bs "x"⟩, none) false, Blob.docText "v")],
        fun _ => none, fun _ => none, fun _ => none⟩ none
      = .ok [⟨bs "http://calendarserver.org/ns/", bs "x"⟩,
             ⟨bs "http://calendarserver.org/ns/", bs "x"⟩] ∧
    ¬ ([(⟨bs "http://calendarserver.org/ns/", bs "x"⟩ : PropertyName),
        ⟨bs "http://calendarserver.org/ns/", bs "x"⟩].count
        ⟨bs "http://calendarserver.org/ns/", bs "x"⟩ ≤ 1) := by
  constructor
  · decide
  · decide

theorem keysDurable_ok (s : Store) (uid : Option ByteStr) (names : List ByteStr)
    (hd : ∀ n ∈ names, ∃ ek, decodeKey n = .ok ek) (seen : List EffKey) :
    ∃ seenF, keysDurable s uid names seen = .ok (seenF, durableKeyNames s uid names) ∧
      (∀ x, x ∈ seenF ↔ x ∈ durableSeen s uid names ∨ x ∈ seen) := by
  induction names generalizing seen with
  | nil =>
    exact ⟨seen, rfl, fun x => by simp [durableSeen]⟩
  | cons n rest ih =>
    obtain ⟨ek, hek⟩ := hd n (List.mem_cons_self n rest)
    have hd' : ∀ m ∈ rest, ∃ ek, decodeKey m = .ok ek :=
      fun m hm => hd m (List.mem_cons_of_mem n hm)
    by_cases hc : ek.2 = uid ∧ ek ∉ s.removed
    · obtain ⟨seenF, hrec, hiff⟩ := ih hd' (ek :: seen)
      refine ⟨seenF, ?_, fun x => ?_⟩
      · simp only [keysDurable, hek, hc, if_true, hrec]
        simp [durableKeyNames, hek, hc]
      · rw [hiff x]
        have hds : durableSeen s uid (n :: rest) = ek :: durableSeen s uid rest := by
          simp [durableSeen, List.filterMap_cons, hek, hc]
        rw [hds]
        simp only [List.mem_cons]
        tauto
    · obtain ⟨seenF, hrec, hiff⟩ := ih hd' seen
      refine ⟨seenF, ?_, fun x => ?_⟩
      · simp only [keysDurable, hek, hc, if_false, hrec]
        simp [durableKeyNames, hek, hc]
      · rw [hiff x]
        simp [durableSeen, List.filterMap_cons, hek, hc]

/-- **C6 (amended)** (enumeration): `list(uid)` yields, in order, one
`PropertyName` per durable attribute name whose decoded effective key
matches the uid and is not in `removed` — with no deduplication in this
durable pass, so an effective key stored under both the compressed and
the uncompressed attribute name is yielded twice — followed by each key
of `modified` for that uid that is not among the effective keys just
seen (the seen-set dedupes only the overlay pass against the durable
pass). -/
theorem claim_C6_enumeration (s : Store) (fs : FS) (uid : Option ByteStr)
    (hd : ∀ n ∈ fs.attrs.map Prod.fst, ∃ ek, decodeKey n = .ok ek)
    (hpath : fs.pathExists = true) :
    keys_uid s fs uid = .ok (
      durableKeyNames s uid (fs.attrs.map Prod.fst) ++
      s.modified.filterMap (fun p =>
        if p.1.2 = uid ∧ p.1 ∉ durableSeen s uid (fs.attrs.map Prod.fst)
        then some p.1.1 else none)) := by
  unfold keys_uid
  simp only [hpath, if_true]
  obtain ⟨seenF, hrec, hiff⟩ := keysDurable_ok s uid (fs.attrs.map Prod.fst) hd []
  rw [hrec]
  dsimp only
  refine congrArg _ (congrArg _ ?_)
  refine List.filterMap_congr (fun p hp => ?_)
  have : (p.1 ∈ seenF) ↔ (p.1 ∈ durableSeen s uid (fs.attrs.map Prod.fst)) := by
    rw [hiff p.1]
    simp
  by_cases hu : p.1.2 = uid
  · by_cases hm : p.1 ∈ durableSeen s uid (fs.attrs.map Prod.fst)
    · simp [hu, hm, this.mpr hm]
    · have hns : p.1 ∉ seenF := fun hx => hm (this.mp hx)
      simp [hu, hm, hns]
  · simp [hu]

/-- Witness for C6 (amended) at the double-stored concrete filesystem. -/
theorem claim_C6_witness :
    keys_uid emptyStore
      ⟨true, [(encodeKey (⟨bs "http://cal.me.com/_namespace/", bs "y"⟩, none), Blob.docText "v"),
              (encodeKey (⟨bs "http://cal.me.com/_namespace/", bs "y"⟩, none) false, Blob.docText "v")],
        fun _ => none, fun _ => none, fun _ => none⟩ none
      = .ok (
        durableKeyNames emptyStore none
          ([(encodeKey (⟨bs "http://cal.me.com/_namespace/", bs "y"⟩, none), Blob.docText "v"),
            (encodeKey (⟨bs "http://cal.me.com/_namespace/", bs "y"⟩, none) false, Blob.docText "v")].map Prod.fst) ++
        emptyStore.modified.filterMap (fun p =>
          if p.1.2 = none ∧ p.1 ∉ durableSeen emptyStore none
              ([(encodeKey (⟨bs "http://cal.me.com/_namespace/", bs "y"⟩, none), Blob.docText "v"),
                (encodeKey (⟨bs "http://cal.me.com/_namespace/", bs "y"⟩, none) false, Blob.docText "v")].map Prod.fst)
          then some p.1.1 else none)) := by
  have h1 : decodeKey (encodeKey (⟨bs "http://cal.me.com/_namespace/", bs "y"⟩, none)) =
      .ok (⟨bs "http://cal.me.com/_namespace/", bs "y"⟩, none) := by decide
  have h2 : decodeKey (encodeKey (⟨bs "http://cal.me.com/_namespace/", bs "y"⟩, none) false) =
      .ok (⟨bs "http://cal.me.com/_namespace/", bs "y"⟩, none) := by decide
  refine claim_C6_enumeration emptyStore _ none ?_ rfl
  intro n hn
  simp only [List.map_cons, List.map_nil, List.mem_cons, List.not_mem_nil, or_false] at hn
  rcases hn with rfl | rfl
  · exact ⟨_, h1⟩
  · exact ⟨_, h2⟩
